import Mathlib

/-!
Verification of the alt-text grammar module of UpSetPlot
(`upsetplot/alt_text.py`): a shallow embedding of the grammar builder,
the per-intersection derivation helpers (deviation, identifier naming,
membership decoding) and the text-fetcher adapter, together with
theorems settling the specification claims.

Modelling conventions:
* Python floats are modelled by exact rationals (`ℚ`); integer values by `Int`.
* Python dicts (insertion ordered, assignment overwrites in place) are
  modelled by association lists with an insert-or-overwrite operation.
* Python strings are Lean `String`s; `str.replace` / `str.split` are
  modelled character-exactly on `List Char` with fuel-based scanners.
* `None`-able arguments are modelled with `Option`.
-/

/-- `calculate_deviation` from `alt_text.py`: expected-vs-observed
intersection size in percentage points (Lex et al. 2014).  The two
`for` loops accumulating products are modelled by `List.foldl`. -/
def calculate_deviation (contained_sets v_sets : List String) (sets : String → ℚ)
    (intersection_size total_items : ℚ) : ℚ :=
  let contained_product :=
    contained_sets.foldl (fun p s => p * (sets s / total_items)) 1
  let non_contained_product :=
    v_sets.foldl
      (fun p v => if v ∈ contained_sets then p else p * (1 - sets v / total_items)) 1
  ((intersection_size / total_items) - contained_product * non_contained_product) * 100

/-- Division with an explicit definedness check: `none` exactly when the
divisor is zero (Python raises `ZeroDivisionError` there). -/
def qdiv (a b : ℚ) : Option ℚ := if b = 0 then none else some (a / b)

/-- `calculate_deviation` with every division routed through `qdiv`, so
that a division by zero surfaces as `none` instead of being absorbed by
the total division of `ℚ`. -/
def calculate_deviation_checked (contained_sets v_sets : List String) (sets : String → ℚ)
    (intersection_size total_items : ℚ) : Option ℚ :=
  Option.bind
    (contained_sets.foldlM
      (fun p s => Option.map (fun d => p * d) (qdiv (sets s) total_items)) (1 : ℚ))
    (fun cp =>
      Option.bind
        (v_sets.foldlM
          (fun p v => if v ∈ contained_sets then some p
            else Option.map (fun d => p * (1 - d)) (qdiv (sets v) total_items)) (1 : ℚ))
        (fun ncp =>
          Option.map (fun r => (r - cp * ncp) * 100)
            (qdiv intersection_size total_items)))

/-- Python-dict assignment `d[k] = v` on an insertion-ordered association
list: overwrite in place when the key exists, append otherwise. -/
def dictInsert {V : Type} (d : List (String × V)) (k : String) (v : V) :
    List (String × V) :=
  if d.any (fun p => p.1 == k) then d.map (fun p => if p.1 == k then (k, v) else p)
  else d ++ [(k, v)]

/-- Python-dict lookup with a default (`d[k]`, total on the keys we use). -/
def dictGet {V : Type} (d : List (String × V)) (k : String) (dflt : V) : V :=
  ((d.find? (fun p => p.1 == k)).map (fun p => p.2)).getD dflt

/-- `get_set_membership_from_index` from `alt_text.py`, at the level of one
intersection row: for each set name (in the fixed order) record "Yes"/"No"
according to the boolean membership tuple. -/
def get_set_membership (names : List String) (bools : List Bool) :
    List (String × String) :=
  (names.zip bools).foldl
    (fun d p => dictInsert d p.1 (if p.2 then "Yes" else "No")) []

/-- `get_degree_from_set_membership` from `alt_text.py`: the number of
"Yes" entries of the membership mapping. -/
def get_degree_from_set_membership (sm : List (String × String)) : Nat :=
  (sm.map (fun p => p.2)).count "Yes"

/-- `generate_intersection_id` from `alt_text.py`: concatenate "Subset"
with "~_~name" for every set name whose membership is "Yes", falling back
to "Subset~_~Unincluded" when nothing was appended. -/
def generate_intersection_id (names : List String) (bools : List Bool) : String :=
  let sm := get_set_membership names bools
  let base := names.foldl
    (fun acc name =>
      acc ++ (if dictGet sm name "" = "Yes" then "~_~" ++ name else "")) "Subset"
  if base = "Subset" then base ++ "~_~Unincluded" else base

/-- The characters of the pattern "Subset~_~" removed by
`id.replace("Subset~_~", "")`. -/
def subPat : List Char := ['S', 'u', 'b', 's', 'e', 't', '~', '_', '~']

/-- The characters of the delimiter "~_~" used by `id.split("~_~")`. -/
def sepPat : List Char := ['~', '_', '~']

/-- Fuel-driven scanner for Python `str.replace(pat, "")` with
`pat = "Subset~_~"`: at each position, remove the pattern if it starts
there (continuing after it, as CPython does for non-overlapping matches),
otherwise keep one character. -/
def stripGo : Nat → List Char → List Char
  | 0, s => s
  | fuel + 1, s =>
    if s.take 9 = subPat then stripGo fuel (s.drop 9)
    else
      match s with
      | [] => []
      | c :: rest => c :: stripGo fuel rest

/-- Python `s.replace("Subset~_~", "")` on the character list of `s`. -/
def pyStrip (s : List Char) : List Char := stripGo s.length s

/-- Fuel-driven scanner for Python `str.split("~_~")`: cut at each
non-overlapping occurrence of the delimiter, scanning left to right. -/
def splitGo : Nat → List Char → List Char → List (List Char)
  | 0, s, acc => [acc.reverse ++ s]
  | fuel + 1, s, acc =>
    if s.take 3 = sepPat then acc.reverse :: splitGo fuel (s.drop 3) []
    else
      match s with
      | [] => [acc.reverse]
      | c :: rest => splitGo fuel rest (c :: acc)

/-- Python `s.split("~_~")` on the character list of `s`. -/
def pySplit (s : List Char) : List (List Char) := splitGo s.length s []

/-- The element-name accumulation loop of `get_element_name_from_id`:
every element but the last is followed by ", ", the last is preceded by
"and ". -/
def renderAnd : List (List Char) → List Char
  | [] => []
  | [e] => "and ".data ++ e
  | e :: rest => e ++ ", ".data ++ renderAnd rest

/-- `get_element_name_from_id` from `alt_text.py`: strip the "Subset~_~"
token, split on "~_~"; a single remaining element renders as
"Just {element}" (or literally "Unincluded" for the empty subset), several
elements render comma-joined with "and " before the last. -/
def get_element_name_from_id (id : String) : String :=
  let stripped := pyStrip id.data
  let elements := pySplit stripped
  if elements.length = 1 then
    if elements.headD [] = "Unincluded".data then "Unincluded"
    else "Just " ++ String.mk (elements.headD [])
  else String.mk (renderAnd elements)

/-- Interleaving of a name list with the "~_~" delimiter, the character
shape of the identifier body after the "Subset~_~" token. -/
def sepIntercalate : List (List Char) → List Char
  | [] => []
  | [n] => n
  | n :: rest => n ++ sepPat ++ sepIntercalate rest

/-- A set name whose characters interact with neither the "~_~" delimiter
nor the "Subset~_~" token: it contains no tilde and does not end in
"Subset". -/
def cleanChars (s : List Char) : Prop :=
  ('~' ∉ s) ∧ s.drop (s.length - 6) ≠ ['S', 'u', 'b', 's', 'e', 't']

/-- The list of set names whose membership flag is true, in the fixed set
order: the names the identifier generation appends after "Subset". -/
def containedNames (names : List String) (bools : List Bool) : List String :=
  ((names.zip bools).filter (fun p => p.2)).map (fun p => p.1)

/-- The element-name rendering exactly as the specification words it:
"Unincluded" for the empty intersection, "Just {name}" for a single
contained set, otherwise the comma-joined names with "and " prefixed to
the last one. -/
def specElementName (C : List String) : String :=
  match C with
  | [] => "Unincluded"
  | [n] => "Just " ++ n
  | L => String.intercalate ", " (L.dropLast ++ ["and " ++ L.getLastD ""])

/-- The plotInformation block of the grammar (five free-text fields). -/
structure PlotInfo where
  title : String
  caption : String
  description : String
  sets : String
  items : String
deriving DecidableEq

/-- The filter block of the grammar. -/
structure Filters where
  maxVisible : Int
  minVisible : Int
  hideEmpty : Bool
  hideNoSet : Bool
deriving DecidableEq

/-- The plot-annex placeholders of the grammar (always empty lists). -/
structure Plots where
  scatterplots : List Unit
  histograms : List Unit
  wordClouds : List Unit
deriving DecidableEq

/-- Optional metadata supplied by the caller; `meta_data.get(key, "")`
is modelled by `Option.getD`. -/
structure MetaData where
  title : Option String
  caption : Option String
  description : Option String
  sets : Option String
  items : Option String

/-- One processed-intersection record of the processedData block. -/
structure PRec where
  id : String
  elementName : String
  setMembership : List (String × String)
  size : Int
  type : String
  degree : Nat
  attributes : List (String × String)
  deviation : ℚ
  items : Option (List String)
deriving DecidableEq

/-- The processedData block: a values dict keyed by intersection id plus
an explicit order list. -/
structure PData where
  values : List (String × PRec)
  order : List String
deriving DecidableEq

/-- The grammar document with the exact top-level fields built by
`generate_grammar`; `sortByOrder` is `none` when the key is absent from
the Python dict, and the three data blocks are `none` unless
`include_data` adds them. -/
structure Grammar where
  version : String
  plotInformation : PlotInfo
  horizontal : Bool
  firstAggregateBy : String
  firstOverlapDegree : Int
  secondAggregateBy : String
  secondOverlapDegree : Int
  sortVisibleBy : String
  sortBy : String
  sortByOrder : Option String
  filters : Filters
  visibleSets : List String
  visibleAttributes : List String
  bookmarks : List Unit
  collapsed : List Unit
  plots : Plots
  allSets : List (String × Int)
  bookmarkedIntersections : List Unit
  processedData : Option PData
  rawData : Option Unit
  accessibleProcessedData : Option PData

/-- `get_all_sets_info` from `alt_text.py`: name/size pairs in totals
order. -/
def get_all_sets_info (totals : List (String × Int)) : List (String × Int) :=
  totals.foldl (fun all_sets p => all_sets ++ [(p.1, p.2)]) []

/-- Lookup of a set size in the totals table (`sets[s]`). -/
def totalsGet (totals : List (String × Int)) (s : String) : ℚ :=
  (((totals.lookup s).getD 0 : Int) : ℚ)

/-- `totals.sum()`. -/
def totalsSum (totals : List (String × Int)) : Int :=
  (totals.map (fun p => p.2)).sum

/-- The record built for one intersection row inside
`generate_processed_data` (the fields common to both variants; `items`
is absent at this point). -/
def mkRecord (names : List String) (totals : List (String × Int))
    (row : List Bool × Int) : PRec :=
  let id := generate_intersection_id names row.1
  let sm := get_set_membership names row.1
  let contained := (sm.filter (fun p => p.2 == "Yes")).map (fun p => p.1)
  ⟨id, get_element_name_from_id id, sm, row.2, "Subset",
    get_degree_from_set_membership sm, [],
    calculate_deviation contained (totals.map (fun p => p.1)) (totalsGet totals)
      ((row.2 : Int) : ℚ) ((totalsSum totals : Int) : ℚ), none⟩

/-- The loop body of `generate_processed_data`: store the record under its
id; the accessible variant re-stores the deviation (a no-op), the full
variant adds an empty items placeholder and appends the id to the order
list. -/
def gpdStep (names : List String) (totals : List (String × Int))
    (accessible : Bool) (pd : PData) (row : List Bool × Int) : PData :=
  let r := mkRecord names totals row
  if accessible then
    ⟨dictInsert pd.values r.id { r with deviation := r.deviation }, pd.order⟩
  else
    ⟨dictInsert pd.values r.id { r with items := some [] }, pd.order ++ [r.id]⟩

/-- `generate_processed_data` from `alt_text.py`: iterate the intersection
rows in input order, building the values dict and (in the full variant)
the order list.  `df` is accepted but never read, as in the source. -/
def generate_processed_data {α : Type} (df : α) (names : List String)
    (rows : List (List Bool × Int)) (totals : List (String × Int))
    (accessible : Bool) : PData :=
  rows.foldl (gpdStep names totals accessible) ⟨[], []⟩

/-- The default grammar dict of `generate_grammar` (lines 65-93 of
`alt_text.py`). -/
def grammarDefaults : Grammar :=
  { version := "0.1.0"
    plotInformation := ⟨"", "", "", "", ""⟩
    horizontal := false
    firstAggregateBy := "None"
    firstOverlapDegree := 2
    secondAggregateBy := "None"
    secondOverlapDegree := 2
    sortVisibleBy := "Alphabetical"
    sortBy := "Size"
    sortByOrder := none
    filters := ⟨6, 0, true, false⟩
    visibleSets := []
    visibleAttributes := []
    bookmarks := []
    collapsed := []
    plots := ⟨[], [], []⟩
    allSets := []
    bookmarkedIntersections := []
    processedData := none
    rawData := none
    accessibleProcessedData := none }

/-- The metadata block of `generate_grammar` (lines 97-102). -/
def applyMetaData (meta_data : Option MetaData) (g : Grammar) : Grammar :=
  match meta_data with
  | none => g
  | some md =>
    { g with plotInformation :=
        ⟨md.title.getD "", md.caption.getD "", md.description.getD "",
          md.sets.getD "", md.items.getD ""⟩ }

/-- The sequential `sort_by` conditionals of `generate_grammar`
(lines 104-119). -/
def applySortBy (sort_by : String) (g : Grammar) : Grammar :=
  let g1 := if sort_by = "degree"
    then { g with sortBy := "Degree", sortByOrder := some "Descending" } else g
  let g2 := if sort_by = "-degree"
    then { g1 with sortBy := "Degree", sortByOrder := some "Ascending" } else g1
  let g3 := if sort_by = "cardinality"
    then { g2 with sortBy := "Size", sortByOrder := some "Ascending" } else g2
  let g4 := if sort_by = "-cardinality"
    then { g3 with sortBy := "Size", sortByOrder := some "Descending" } else g3
  if sort_by = "input" ∨ sort_by = "-input"
    then { g4 with sortBy := "Size", sortByOrder := some "Descending" } else g4

/-- The sequential `sort_categories_by` conditionals of `generate_grammar`
(lines 121-127). -/
def applySortCategoriesBy (sort_categories_by : String) (g : Grammar) : Grammar :=
  let g1 := if sort_categories_by = "cardinality"
    then { g with sortVisibleBy := "Descending" } else g
  let g2 := if sort_categories_by = "-cardinality"
    then { g1 with sortVisibleBy := "Ascending" } else g1
  if sort_categories_by = "input" ∨ sort_categories_by = "-input"
    then { g2 with sortVisibleBy := "Alphabetical" } else g2

/-- The filter assignments of `generate_grammar` (lines 129-136). -/
def applyFilters (min_degree max_degree : Option Int)
    (include_empty_subsets : Bool) (g : Grammar) : Grammar :=
  { g with filters :=
      { hideEmpty := !include_empty_subsets
        hideNoSet := match min_degree with
          | some d => decide (d > 0)
          | none => false
        minVisible := match min_degree with
          | some d => d
          | none => 0
        maxVisible := match max_degree with
          | some d => d
          | none => 6 } }

/-- `generate_grammar` from `alt_text.py`: the default grammar dict
followed by the sequential updates of the source.  The intersections
series is passed as its index names plus its rows; `df` is forwarded to
the processed-data derivation but never read. -/
def generate_grammar {α : Type} (df : α) (names : List String)
    (rows : List (List Bool × Int)) (totals : List (String × Int))
    (horizontal : Bool) (sort_by sort_categories_by : String)
    (min_degree max_degree : Option Int)
    (include_empty_subsets include_data : Bool)
    (meta_data : Option MetaData) : Grammar :=
  let g1 := { grammarDefaults with horizontal := horizontal }
  let g2 := applyMetaData meta_data g1
  let g3 := applySortBy sort_by g2
  let g4 := applySortCategoriesBy sort_categories_by g3
  let g5 := applyFilters min_degree max_degree include_empty_subsets g4
  let g6 := { g5 with
    visibleSets := totals.map (fun p => p.1)
    allSets := get_all_sets_info totals
    bookmarkedIntersections := [] }
  if include_data then
    { g6 with
      processedData := some (generate_processed_data df names rows totals false)
      rawData := some ()
      accessibleProcessedData :=
        some (generate_processed_data df names rows totals true) }
  else g6

/-- Dropping the items placeholder from a processed record (the only field
on which the accessible and full variants differ). -/
def stripItems (r : PRec) : PRec := { r with items := none }

/-- `fetch_alt_text` from `alt_text.py`: the first try/except wraps the
construction of the external engine (`Parser`, `TokenMap`, `AltTxtGen`) and
re-raises with the setup prefix; the second wraps `gen.text` and re-raises
with the generation prefix.  The external engine is abstracted as a
construction function and a text accessor that may fail. -/
def fetch_alt_text {G E T : Type} (mkEngine : G → Except String E)
    (getText : E → Except String T) (grammar : G) : Except String T :=
  match mkEngine grammar with
  | Except.error e => Except.error ("Failed to create alt text generator: " ++ e)
  | Except.ok gen =>
    match getText gen with
    | Except.error e => Except.error ("Failed to generate alt text: " ++ e)
    | Except.ok t => Except.ok t

/-- Modelled from the spec: the construction of the external
text-generation engine (the alttxt package's `Parser`/`TokenMap`/
`AltTxtGen`, which is not part of this repository) fails on a malformed or
incomplete grammar document such as the empty document. -/
def externalEngineSetup (doc : List (String × String)) : Except String Unit :=
  if doc.isEmpty then Except.error "empty grammar" else Except.ok ()

theorem foldl_mul_eq_prod (l : List String) (f : String → ℚ) :
    ∀ init : ℚ, l.foldl (fun p s => p * f s) init = init * (l.map f).prod := by
  induction l with
  | nil => intro init; simp
  | cons a t ih =>
    intro init
    rw [List.map_cons, List.foldl_cons, ih, List.prod_cons]
    ring

theorem foldl_cond_mul_eq_prod (V C : List String) (f : String → ℚ) :
    ∀ init : ℚ,
      V.foldl (fun p v => if v ∈ C then p else p * f v) init
        = init * ((V.filter (fun v => v ∉ C)).map f).prod := by
  induction V with
  | nil => intro init; simp
  | cons a t ih =>
    intro init
    by_cases h : a ∈ C
    · rw [List.foldl_cons, if_pos h, ih, List.filter_cons]
      simp [h]
    · rw [List.foldl_cons, if_neg h, ih, List.filter_cons]
      simp only [h, not_false_iff, decide_True, if_true, List.map_cons, List.prod_cons]
      ring

/-- C1: for every intersection record with contained-set list `C`, full set
list `V`, intersection size `n` and positive total `T`, the deviation equals
`100 * (n/T - Π_{s ∈ C} (size s / T) * Π_{v ∈ V, v ∉ C} (1 - size v / T))`. -/
theorem calculate_deviation_formula (C V : List String) (sets : String → ℚ)
    (n T : ℚ) (hT : 0 < T) :
    calculate_deviation C V sets n T
      = 100 * (n / T
          - ((C.map (fun s => sets s / T)).prod
              * ((V.filter (fun v => v ∉ C)).map (fun v => 1 - sets v / T)).prod)) := by
  unfold calculate_deviation
  rw [foldl_mul_eq_prod, foldl_cond_mul_eq_prod]
  ring

/-- Witness for C1 at totals `{A: 50, B: 50}` (total 100) and an
intersection of both sets of size 25: the deviation is exactly 0. -/
theorem calculate_deviation_formula_witness :
    calculate_deviation ["A", "B"] ["A", "B"] (fun _ => 50) 25 100 = 0 := by
  rw [calculate_deviation_formula ["A", "B"] ["A", "B"] (fun _ => 50) 25 100 (by norm_num)]
  norm_num [List.filter]

theorem foldlM_of_some {α β : Type} (f : β → α → β) (l : List α) :
    ∀ init : β, l.foldlM (fun p x => some (f p x)) init = some (l.foldl f init) := by
  induction l with
  | nil => intro init; rfl
  | cons a t ih => intro init; simpa using ih (f init a)

theorem bind_bind_none (x y : Option ℚ) :
    Option.bind x (fun _ => Option.bind y (fun _ => (none : Option ℚ))) = none := by
  cases x <;> cases y <;> rfl

/-- C9: under the precondition `T ≠ 0`, every division performed by the
deviation computation is defined and the checked computation agrees with
the unchecked one; when `T = 0` the computation divides by zero. -/
theorem calculate_deviation_checked_spec (C V : List String) (sets : String → ℚ)
    (n T : ℚ) :
    (T ≠ 0 →
      calculate_deviation_checked C V sets n T
        = some (calculate_deviation C V sets n T))
    ∧ (T = 0 → calculate_deviation_checked C V sets n T = none) := by
  constructor
  · intro hT
    unfold calculate_deviation_checked
    have h1 : (fun (p : ℚ) (s : String) => Option.map (fun d => p * d) (qdiv (sets s) T))
        = fun p s => some (p * (sets s / T)) := by
      funext p s
      simp [qdiv, hT]
    have h2 : (fun (p : ℚ) (v : String) => if v ∈ C then some p
          else Option.map (fun d => p * (1 - d)) (qdiv (sets v) T))
        = fun p v => some (if v ∈ C then p else p * (1 - sets v / T)) := by
      funext p v
      by_cases h : v ∈ C <;> simp [h, qdiv, hT]
    rw [h1, h2, foldlM_of_some, foldlM_of_some]
    simp [qdiv, hT, calculate_deviation]
  · intro hT
    subst hT
    unfold calculate_deviation_checked
    have hq : qdiv n 0 = none := by simp [qdiv]
    rw [hq]
    exact bind_bind_none _ _

/-- Witness for C9: at a concrete intersection the checked computation is
defined for total 4 and divides by zero for total 0. -/
theorem calculate_deviation_checked_spec_witness :
    calculate_deviation_checked ["A"] ["A"] (fun _ => 2) 1 4
        = some (calculate_deviation ["A"] ["A"] (fun _ => 2) 1 4)
    ∧ calculate_deviation_checked ["A"] ["A"] (fun _ => 2) 1 0 = none :=
  ⟨(calculate_deviation_checked_spec ["A"] ["A"] (fun _ => 2) 1 4).1 (by norm_num),
   (calculate_deviation_checked_spec ["A"] ["A"] (fun _ => 2) 1 0).2 rfl⟩

theorem stripGo_id : ∀ (fuel : Nat) (s : List Char),
    (∀ p, (s.drop p).take 9 ≠ subPat) → stripGo fuel s = s := by
  intro fuel
  induction fuel with
  | zero => intro s _; rfl
  | succ f ih =>
    intro s h
    have h0 : ¬ s.take 9 = subPat := by simpa using h 0
    cases s with
    | nil =>
      rw [stripGo, if_neg h0]
    | cons c rest =>
      rw [stripGo, if_neg h0]
      have : stripGo f rest = rest :=
        ih rest (fun p => by simpa using h (p + 1))
      rw [this]

theorem seg_noOcc (n r : List Char) (hn : cleanChars n)
    (hr : r = [] ∨ ∃ r2, r = sepPat ++ r2)
    (hrOcc : ∀ q, (r.drop q).take 9 ≠ subPat) :
    ∀ p, ((n ++ r).drop p).take 9 ≠ subPat := by
  intro p hEq
  by_cases hp : p ≤ n.length
  · have hdrop : (n ++ r).drop p = n.drop p ++ r := by
      rw [List.drop_append_eq_append_drop]
      have h0 : p - n.length = 0 := by omega
      rw [h0, List.drop_zero]
    rw [hdrop] at hEq
    have hlt : n.length - p ≤ 5 ∨ n.length - p = 6 ∨ 7 ≤ n.length - p := by omega
    have htlen : (n.drop p).length = n.length - p := List.length_drop p n
    rcases hlt with h5 | h6 | h7
    · -- the window reaches past the name into the delimiter region
      have hlen9 : 9 ≤ (n.drop p).length + r.length := by
        have := congrArg List.length hEq
        simp only [List.length_take, List.length_append, subPat, List.length_cons,
          List.length_nil] at this
        omega
      rcases hr with hre | ⟨r2, hr2⟩
      · rw [hre] at hlen9
        simp only [List.length_nil] at hlen9
        omega
      · have hidx : ((n.drop p ++ r).take 9)[(n.drop p).length]? = some '~' := by
          rw [List.getElem?_take_of_lt (by omega)]
          rw [List.getElem?_append_right (Nat.le_refl _)]
          rw [Nat.sub_self, hr2]
          rfl
        rw [hEq] at hidx
        have hb : (n.drop p).length ≤ 5 := by omega
        set k := (n.drop p).length with hk
        interval_cases k <;> simp [subPat] at hidx
    · -- name ends exactly in "Subset"
      have ht6 : (n.drop p).length = 6 := by omega
      have hsix : n.drop p = ['S', 'u', 'b', 's', 'e', 't'] := by
        have h1 : (n.drop p ++ r).take 6 = n.drop p := by
          rw [← ht6, List.take_append_of_le_length (Nat.le_refl _), List.take_length]
        have h2 : (n.drop p ++ r).take 6 = ((n.drop p ++ r).take 9).take 6 := by
          rw [List.take_take]
          norm_num
        rw [← h1, h2, hEq]
        rfl
      apply hn.2
      have hpv : p = n.length - 6 := by omega
      rw [← hpv]
      exact hsix
    · -- the tilde inside "Subset~_~" would sit inside the name
      have hidx : ((n.drop p ++ r).take 9)[6]? = (n.drop p)[6]? := by
        rw [List.getElem?_take_of_lt (by omega)]
        exact List.getElem?_append_left (by omega)
      rw [hEq] at hidx
      have : (n.drop p)[6]? = some '~' := by
        rw [← hidx]
        rfl
      have hmem : '~' ∈ n.drop p := List.getElem?_mem this
      exact hn.1 (List.drop_subset p n hmem)
  · have hdrop : (n ++ r).drop p = r.drop (p - n.length) := by
      rw [List.drop_append_eq_append_drop]
      have h0 : n.drop p = [] := List.drop_eq_nil_of_le (by omega)
      rw [h0, List.nil_append]
    rw [hdrop] at hEq
    exact hrOcc (p - n.length) hEq

theorem take_ne_subPat_of_head (s : List Char) (h : s[0]? ≠ some 'S') :
    s.take 9 ≠ subPat := by
  intro hEq
  apply h
  have : (s.take 9)[0]? = s[0]? := List.getElem?_take_of_lt (by omega)
  rw [← this, hEq]
  rfl

theorem sepIntercalate_noOcc : ∀ (C : List (List Char)),
    (∀ n ∈ C, cleanChars n) →
    ∀ p, ((sepIntercalate C).drop p).take 9 ≠ subPat := by
  intro C
  induction C with
  | nil =>
    intro _ p
    simp only [sepIntercalate, List.drop_nil, List.take_nil]
    intro hEq
    exact absurd hEq.symm (by simp [subPat])
  | cons n rest ih =>
    intro h p
    cases rest with
    | nil =>
      have hseg := seg_noOcc n [] (h n (by simp)) (Or.inl rfl)
        (fun q => by simp [subPat])
      simpa [sepIntercalate] using hseg p
    | cons m rest2 =>
      have hb := ih (fun x hx => h x (by simp [hx]))
      have hrOcc : ∀ q,
          (((sepPat ++ sepIntercalate (m :: rest2)).drop q).take 9) ≠ subPat := by
        intro q
        match q with
        | 0 =>
          apply take_ne_subPat_of_head
          simp [sepPat]
        | 1 =>
          apply take_ne_subPat_of_head
          simp [sepPat]
        | 2 =>
          apply take_ne_subPat_of_head
          simp [sepPat]
        | (q + 3) =>
          have : (sepPat ++ sepIntercalate (m :: rest2)).drop (q + 3)
              = (sepIntercalate (m :: rest2)).drop q := by
            simp [sepPat]
          rw [this]
          exact hb q
      have hseg := seg_noOcc n (sepPat ++ sepIntercalate (m :: rest2))
        (h n (by simp)) (Or.inr ⟨_, rfl⟩) hrOcc
      have hshape : sepIntercalate (n :: m :: rest2)
          = n ++ (sepPat ++ sepIntercalate (m :: rest2)) := by
        rw [← List.append_assoc]
        rfl
      rw [hshape]
      exact hseg p

theorem stripGo_succ (fuel : Nat) (s : List Char) :
    stripGo (fuel + 1) s
      = if s.take 9 = subPat then stripGo fuel (s.drop 9)
        else match s with
          | [] => []
          | c :: rest => c :: stripGo fuel rest := rfl

theorem pyStrip_subPat_append (body : List Char)
    (h : ∀ p, (body.drop p).take 9 ≠ subPat) :
    pyStrip (subPat ++ body) = body := by
  unfold pyStrip
  have hlen : (subPat ++ body).length = (8 + body.length) + 1 := by
    simp [subPat]
    omega
  rw [hlen, stripGo_succ]
  have hpre : (subPat ++ body).take 9 = subPat := by
    have h9 : subPat.length = 9 := rfl
    rw [← h9, List.take_append_of_le_length (Nat.le_refl _), List.take_length]
  rw [if_pos hpre]
  have hdrop : (subPat ++ body).drop 9 = body := by
    have h9 : subPat.length = 9 := rfl
    rw [← h9, List.drop_append_of_le_length (Nat.le_refl _), List.drop_length,
      List.nil_append]
  rw [hdrop]
  exact stripGo_id _ body h

theorem splitGo_succ (fuel : Nat) (s : List Char) (acc : List Char) :
    splitGo (fuel + 1) s acc
      = if s.take 3 = sepPat then acc.reverse :: splitGo fuel (s.drop 3) []
        else match s with
          | [] => [acc.reverse]
          | c :: rest => splitGo fuel rest (c :: acc) := rfl

theorem splitGo_scanA : ∀ (n : List Char), '~' ∉ n →
    ∀ (fuel : Nat) (acc : List Char), splitGo fuel n acc = [acc.reverse ++ n] := by
  intro n
  induction n with
  | nil =>
    intro _ fuel acc
    cases fuel with
    | zero => simp [splitGo]
    | succ f =>
      rw [splitGo_succ, if_neg (by simp [sepPat])]
      simp
  | cons c rest ih =>
    intro hn fuel acc
    cases fuel with
    | zero => rfl
    | succ f =>
      have hc : c ≠ '~' := fun hceq => hn (by simp [hceq])
      have hpre : ¬ (c :: rest).take 3 = sepPat := by
        intro hEq
        rw [List.take_succ_cons] at hEq
        simp only [sepPat, List.cons.injEq] at hEq
        exact hc hEq.1
      rw [splitGo_succ, if_neg hpre]
      show splitGo f rest (c :: acc) = _
      rw [ih (fun hm => hn (by simp [hm])) f (c :: acc)]
      simp

theorem splitGo_scanB : ∀ (n : List Char), '~' ∉ n →
    ∀ (r : List Char) (fuel : Nat) (acc : List Char),
      splitGo (n.length + 1 + fuel) (n ++ sepPat ++ r) acc
        = (acc.reverse ++ n) :: splitGo fuel r [] := by
  intro n
  induction n with
  | nil =>
    intro _ r fuel acc
    have h1 : ([] : List Char).length + 1 + fuel = fuel + 1 := by
      simp
      omega
    rw [h1, List.nil_append, splitGo_succ]
    have hpre : (sepPat ++ r).take 3 = sepPat := by
      have h3 : sepPat.length = 3 := rfl
      rw [← h3, List.take_append_of_le_length (Nat.le_refl _), List.take_length]
    rw [if_pos hpre]
    have hdrop : (sepPat ++ r).drop 3 = r := by
      have h3 : sepPat.length = 3 := rfl
      rw [← h3, List.drop_append_of_le_length (Nat.le_refl _), List.drop_length,
        List.nil_append]
    rw [hdrop]
    simp
  | cons c rest ih =>
    intro hn r fuel acc
    have hc : c ≠ '~' := fun hceq => hn (by simp [hceq])
    have h1 : (c :: rest).length + 1 + fuel = (rest.length + 1 + fuel) + 1 := by
      simp
      omega
    rw [h1]
    have hshape : (c :: rest) ++ sepPat ++ r = c :: (rest ++ sepPat ++ r) := by
      simp
    rw [hshape, splitGo_succ]
    have hpre : ¬ (c :: (rest ++ sepPat ++ r)).take 3 = sepPat := by
      intro hEq
      rw [List.take_succ_cons] at hEq
      simp only [sepPat, List.cons.injEq] at hEq
      exact hc hEq.1
    rw [if_neg hpre]
    show splitGo (rest.length + 1 + fuel) (rest ++ sepPat ++ r) (c :: acc) = _
    rw [ih (fun hm => hn (by simp [hm])) r fuel (c :: acc)]
    simp

theorem splitGo_sepIntercalate : ∀ (C : List (List Char)), C ≠ [] →
    (∀ n ∈ C, '~' ∉ n) → ∀ fuel, (sepIntercalate C).length ≤ fuel →
    ∀ acc, splitGo fuel (sepIntercalate C) acc
      = (acc.reverse ++ C.headD []) :: C.tail := by
  intro C
  induction C with
  | nil => intro h; exact absurd rfl h
  | cons n rest ih =>
    intro _ hcl fuel hfuel acc
    cases rest with
    | nil =>
      simpa [sepIntercalate] using splitGo_scanA n (hcl n (by simp)) fuel acc
    | cons m rest2 =>
      have hshape : sepIntercalate (n :: m :: rest2)
          = n ++ sepPat ++ sepIntercalate (m :: rest2) := rfl
      rw [hshape] at hfuel ⊢
      have hlen : (n ++ sepPat ++ sepIntercalate (m :: rest2)).length
          = n.length + 3 + (sepIntercalate (m :: rest2)).length := by
        simp [sepPat]
        omega
      rw [hlen] at hfuel
      have hfe : fuel = n.length + 1 + (fuel - n.length - 1) := by omega
      rw [hfe, splitGo_scanB n (hcl n (by simp)) _ _ acc]
      rw [ih (by simp) (fun x hx => hcl x (by simp [hx])) (fuel - n.length - 1)
        (by omega) []]
      simp

theorem pySplit_sepIntercalate (C : List (List Char)) (hC : C ≠ [])
    (hcl : ∀ n ∈ C, '~' ∉ n) :
    pySplit (sepIntercalate C) = C := by
  unfold pySplit
  rw [splitGo_sepIntercalate C hC hcl _ (Nat.le_refl _) []]
  cases C with
  | nil => exact absurd rfl hC
  | cons n rest => simp

theorem buildDict_eq : ∀ (ps : List (String × String)) (d : List (String × String)),
    (ps.map (fun p => p.1)).Nodup →
    (∀ p ∈ ps, ∀ q ∈ d, q.1 ≠ p.1) →
    ps.foldl (fun d p => dictInsert d p.1 p.2) d = d ++ ps := by
  intro ps
  induction ps with
  | nil => intro d _ _; simp
  | cons a t ih =>
    intro d hnd hdisj
    simp only [List.map_cons, List.nodup_cons] at hnd
    rw [List.foldl_cons]
    have hnc : ¬ (d.any fun p => p.1 == a.1) = true := by
      simp only [List.any_eq_true, not_exists, not_and]
      intro q hq
      simp only [beq_iff_eq]
      exact hdisj a (by simp) q hq
    have hins : dictInsert d a.1 a.2 = d ++ [a] := by
      unfold dictInsert
      rw [if_neg hnc]
    have hdisj2 : ∀ p ∈ t, ∀ q ∈ d ++ [a], q.1 ≠ p.1 := by
      intro p hp q hq
      rcases List.mem_append.mp hq with hq1 | hq1
      · exact hdisj p (by simp [hp]) q hq1
      · have hqa : q = a := by simpa using hq1
        subst hqa
        intro hEq
        exact hnd.1 (hEq ▸ List.mem_map_of_mem (fun p => p.1) hp)
    rw [hins, ih (d ++ [a]) hnd.2 hdisj2]
    simp

theorem get_set_membership_eq (names : List String) (bools : List Bool)
    (hnd : names.Nodup) (hlen : bools.length = names.length) :
    get_set_membership names bools
      = (names.zip bools).map (fun p => (p.1, if p.2 then "Yes" else "No")) := by
  unfold get_set_membership
  rw [← List.foldl_map (fun p : String × Bool => (p.1, if p.2 then "Yes" else "No"))
    (fun d q => dictInsert d q.1 q.2)]
  rw [buildDict_eq _ [] ?keys (by intro p _ q hq; cases hq)]
  · rw [List.nil_append]
  case keys =>
    rw [List.map_map]
    have : ((fun p : String × String => p.1)
        ∘ fun p : String × Bool => (p.1, if p.2 then "Yes" else "No"))
        = fun p : String × Bool => p.1 := rfl
    rw [this]
    have hfst : (names.zip bools).map (fun p => p.1) = names := by
      have := List.map_fst_zip names bools (by omega)
      simpa using this
    rw [hfst]
    exact hnd

theorem dictGet_zipMap : ∀ (zs : List (String × Bool)),
    (zs.map (fun p => p.1)).Nodup →
    ∀ p ∈ zs,
      dictGet (zs.map (fun q => (q.1, if q.2 then "Yes" else "No"))) p.1 ""
        = if p.2 then "Yes" else "No" := by
  intro zs
  induction zs with
  | nil => intro _ p hp; cases hp
  | cons q zs ih =>
    intro hnd p hp
    rcases List.mem_cons.mp hp with hpq | hp'
    · subst hpq
      unfold dictGet
      rw [List.map_cons, List.find?_cons_of_pos _ (by simp)]
      rfl
    · simp only [List.map_cons, List.nodup_cons] at hnd
      have hne : ¬ (q.1 == p.1) = true := by
        simp only [beq_iff_eq]
        intro hEq
        exact hnd.1 (hEq ▸ List.mem_map_of_mem (fun r => r.1) hp')
      unfold dictGet
      rw [List.map_cons, List.find?_cons_of_neg _ (by simpa using hne)]
      exact ih hnd.2 p hp'

theorem join_foldl_data : ∀ (L : List String) (init : String),
    (L.foldl (fun r s => r ++ s) init).data
      = init.data ++ (L.map String.data).flatten := by
  intro L
  induction L with
  | nil => intro init; simp
  | cons a t ih =>
    intro init
    rw [List.foldl_cons, ih, List.map_cons, List.flatten_cons, String.data_append,
      List.append_assoc]

theorem join_data (L : List String) :
    (String.join L).data = (L.map String.data).flatten := by
  rw [String.join, join_foldl_data]
  rfl

theorem join_cons (x : String) (L : List String) :
    String.join (x :: L) = x ++ String.join L := by
  apply String.ext
  rw [String.data_append, join_data, join_data, List.map_cons, List.flatten_cons]

theorem foldl_id_pieces (d : List (String × String)) :
    ∀ (names : List String) (bools : List Bool), bools.length = names.length →
    (∀ p ∈ names.zip bools, dictGet d p.1 "" = if p.2 then "Yes" else "No") →
    ∀ acc : String,
      names.foldl
        (fun a name => a ++ (if dictGet d name "" = "Yes" then "~_~" ++ name else ""))
        acc
      = acc ++ String.join ((containedNames names bools).map (fun n => "~_~" ++ n)) := by
  intro names
  induction names with
  | nil =>
    intro bools _ _ acc
    simp [containedNames, String.join]
  | cons n ns ih =>
    intro bools hlen hd acc
    cases bools with
    | nil => simp at hlen
    | cons b bs =>
      rw [List.foldl_cons]
      have hn := hd (n, b) (by rw [List.zip_cons_cons]; exact List.mem_cons_self _ _)
      have hrest : ∀ p ∈ ns.zip bs, dictGet d p.1 "" = if p.2 then "Yes" else "No" :=
        fun p hp => hd p (by rw [List.zip_cons_cons]; exact List.mem_cons_of_mem _ hp)
      rw [ih bs (by simpa using hlen) hrest]
      have hcont : containedNames (n :: ns) (b :: bs)
          = if b then n :: containedNames ns bs else containedNames ns bs := by
        unfold containedNames
        rw [List.zip_cons_cons, List.filter_cons]
        cases b <;> simp
      cases b
      · simp only [Bool.false_eq_true, if_false] at hn
        rw [hn, if_neg (by simp), hcont, if_neg (by simp)]
        rw [String.append_empty]
      · simp only [if_true] at hn
        rw [hn, if_pos rfl, hcont, if_pos rfl, List.map_cons, join_cons,
          String.append_assoc]

theorem generate_intersection_id_spec (names : List String) (bools : List Bool)
    (hnd : names.Nodup) (hlen : bools.length = names.length) :
    generate_intersection_id names bools
      = if containedNames names bools = [] then "Subset~_~Unincluded"
        else "Subset"
          ++ String.join ((containedNames names bools).map (fun n => "~_~" ++ n)) := by
  simp only [generate_intersection_id]
  have hkeys : ((names.zip bools).map (fun p => p.1)).Nodup := by
    have h1 : (names.zip bools).map (fun p => p.1) = names :=
      List.map_fst_zip names bools (by omega)
    rw [h1]
    exact hnd
  have hd : ∀ p ∈ names.zip bools,
      dictGet (get_set_membership names bools) p.1 "" = if p.2 then "Yes" else "No" := by
    intro p hp
    rw [get_set_membership_eq names bools hnd hlen]
    exact dictGet_zipMap (names.zip bools) hkeys p hp
  rw [foldl_id_pieces (get_set_membership names bools) names bools hlen hd "Subset"]
  by_cases hC : containedNames names bools = []
  · rw [hC]
    simp only [List.map_nil]
    rw [if_pos (by rw [show String.join ([] : List String) = "" from rfl,
      String.append_empty])]
    rw [if_pos trivial]
    rw [show String.join ([] : List String) = "" from rfl, String.append_empty]
    decide
  · rw [if_neg hC, if_neg]
    intro hEq
    have hdata := congrArg String.data hEq
    rw [String.data_append, join_data] at hdata
    rw [List.append_right_eq_self] at hdata
    rcases List.exists_cons_of_ne_nil hC with ⟨c, rest, hcr⟩
    rw [hcr, List.map_cons, List.map_cons, List.flatten_cons,
      String.data_append] at hdata
    simp [show ("~_~".data) = ['~', '_', '~'] from rfl] at hdata

theorem renderAnd_formula : ∀ (C : List String), C ≠ [] →
    renderAnd (C.map String.data)
      = ((C.dropLast.map (fun x => x.data ++ ", ".data)).flatten)
        ++ ("and ".data ++ (C.getLastD "").data) := by
  intro C
  induction C with
  | nil => intro h; exact absurd rfl h
  | cons a t ih =>
    intro _
    cases t with
    | nil => simp [renderAnd]
    | cons b t2 =>
      have hstep : renderAnd ((a :: b :: t2).map String.data)
          = a.data ++ ", ".data ++ renderAnd ((b :: t2).map String.data) := rfl
      rw [hstep, ih (by simp)]
      have hdl : (a :: b :: t2).dropLast = a :: (b :: t2).dropLast := rfl
      have hgl : (a :: b :: t2).getLastD "" = (b :: t2).getLastD "" := rfl
      rw [hdl, hgl, List.map_cons, List.flatten_cons]
      simp [List.append_assoc]

theorem intercalate_go_data (s : String) : ∀ (as : List String) (acc : String),
    (String.intercalate.go acc s as).data
      = acc.data ++ ((as.map (fun a => s.data ++ a.data)).flatten) := by
  intro as
  induction as with
  | nil => intro acc; simp [String.intercalate.go]
  | cons a t ih =>
    intro acc
    rw [String.intercalate.go, ih]
    simp [List.append_assoc]

theorem intercalate_data (s a : String) (as : List String) :
    (String.intercalate s (a :: as)).data
      = a.data ++ ((as.map (fun x => s.data ++ x.data)).flatten) := by
  rw [String.intercalate, intercalate_go_data]

theorem flatten_sep_rotate (s : List Char) : ∀ (L : List (List Char)),
    (L.map (fun x => s ++ x)).flatten ++ s = s ++ (L.map (fun x => x ++ s)).flatten := by
  intro L
  induction L with
  | nil => simp
  | cons x xs ih =>
    rw [List.map_cons, List.flatten_cons, List.map_cons, List.flatten_cons]
    rw [List.append_assoc, List.append_assoc, ih]
    simp [List.append_assoc]

theorem intercalate_append_single_data (M : List String) (w : String) :
    (String.intercalate ", " (M ++ [w])).data
      = (M.map (fun x => x.data ++ ", ".data)).flatten ++ w.data := by
  cases M with
  | nil => simp [intercalate_data]
  | cons m ms =>
    have hmm1 : (ms.map (fun x => ", ".data ++ x.data))
        = (ms.map String.data).map (fun x => [',', ' '] ++ x) := by
      rw [List.map_map]
      rfl
    have hmm2 : (ms.map (fun x => x.data ++ ", ".data))
        = (ms.map String.data).map (fun x => x ++ [',', ' ']) := by
      rw [List.map_map]
      rfl
    rw [List.cons_append, intercalate_data, List.map_append, List.flatten_append]
    rw [List.map_cons, List.flatten_cons]
    simp only [List.map_nil, List.flatten_nil, List.append_nil]
    rw [List.map_cons, List.flatten_cons, hmm1, hmm2]
    rw [← List.append_assoc
      (((ms.map String.data).map (fun x => [',', ' '] ++ x)).flatten)]
    rw [flatten_sep_rotate [',', ' '] (ms.map String.data)]
    simp [List.append_assoc]

theorem flatten_sepPieces : ∀ (L : List (List Char)), L ≠ [] →
    (L.map (fun x => sepPat ++ x)).flatten = sepPat ++ sepIntercalate L := by
  intro L
  induction L with
  | nil => intro h; exact absurd rfl h
  | cons x t ih =>
    intro _
    cases t with
    | nil => simp [sepIntercalate]
    | cons y t2 =>
      rw [List.map_cons, List.flatten_cons, ih (by simp)]
      have hshape : sepIntercalate (x :: y :: t2)
          = x ++ sepPat ++ sepIntercalate (y :: t2) := rfl
      rw [hshape]
      simp [List.append_assoc]

theorem id_data (C : List String) (hC : C ≠ []) :
    ("Subset" ++ String.join (C.map (fun n => "~_~" ++ n))).data
      = subPat ++ sepIntercalate (C.map String.data) := by
  rw [String.data_append, join_data, List.map_map]
  have hfn : (String.data ∘ fun n : String => "~_~" ++ n)
      = fun n : String => sepPat ++ n.data := by
    funext n
    show ("~_~" ++ n).data = sepPat ++ n.data
    rw [String.data_append]
    rfl
  rw [hfn]
  have hmm : C.map (fun n : String => sepPat ++ n.data)
      = (C.map String.data).map (fun x => sepPat ++ x) := by
    rw [List.map_map]
    rfl
  rw [hmm, flatten_sepPieces _ (by simpa using hC)]
  rw [← List.append_assoc]
  have hsp : "Subset".data ++ sepPat = subPat := by decide
  rw [hsp]

theorem get_element_name_spec (C : List String)
    (hcl : ∀ n ∈ C, cleanChars n.data)
    (hsing : C ≠ ["Unincluded"]) (hC : C ≠ []) :
    get_element_name_from_id
        ("Subset" ++ String.join (C.map (fun n => "~_~" ++ n)))
      = specElementName C := by
  simp only [get_element_name_from_id]
  rw [id_data C hC]
  have hstrip : pyStrip (subPat ++ sepIntercalate (C.map String.data))
      = sepIntercalate (C.map String.data) := by
    apply pyStrip_subPat_append
    apply sepIntercalate_noOcc
    intro x hx
    rcases List.mem_map.mp hx with ⟨n, hn, rfl⟩
    exact hcl n hn
  rw [hstrip]
  have hsplit : pySplit (sepIntercalate (C.map String.data)) = C.map String.data := by
    apply pySplit_sepIntercalate
    · simpa using hC
    · intro x hx
      rcases List.mem_map.mp hx with ⟨n, hn, rfl⟩
      exact (hcl n hn).1
  rw [hsplit]
  cases C with
  | nil => exact absurd rfl hC
  | cons a t =>
    cases t with
    | nil =>
      rw [if_pos (by simp)]
      simp only [List.map_cons, List.map_nil, List.headD_cons]
      have hne : ¬ (a.data = "Unincluded".data) := by
        intro hEq
        exact hsing (by rw [show a = "Unincluded" from String.ext hEq])
      rw [if_neg hne]
      rfl
    | cons b t2 =>
      rw [if_neg (by simp)]
      apply String.ext
      show renderAnd ((a :: b :: t2).map String.data)
          = (String.intercalate ", "
              ((a :: b :: t2).dropLast ++ ["and " ++ (a :: b :: t2).getLastD ""])).data
      rw [renderAnd_formula _ (by simp), intercalate_append_single_data,
        String.data_append]

/-- C2 counterexample: with a single set literally named "Unincluded" that
the element belongs to, the identifier collides with the designated empty
intersection, so the rendered element name is "Unincluded" and not
"Just Unincluded" as the claim requires for a one-set membership. -/
theorem intersection_naming_counterexample :
    generate_intersection_id ["Unincluded"] [true] = "Subset~_~Unincluded"
    ∧ get_element_name_from_id (generate_intersection_id ["Unincluded"] [true])
        = "Unincluded"
    ∧ ("Unincluded" : String) ≠ "Just Unincluded" := by
  refine ⟨by decide, by decide, by decide⟩

/-- C2 (amended): for distinct set names none of which contains a tilde or
ends in "Subset", the identifier is "Subset" followed by "~_~name" for each
contained set (in the fixed order), the all-"No" row yielding
"Subset~_~Unincluded"; and — provided the contained list is not exactly the
single name "Unincluded" — the element name renders as "Unincluded" for the
empty intersection, "Just {name}" for one set, and a comma-joined list with
"and " before the final name otherwise. -/
theorem intersection_naming (names : List String) (bools : List Bool)
    (hnd : names.Nodup) (hlen : bools.length = names.length)
    (hclean : ∀ n ∈ names, cleanChars n.data)
    (hsing : containedNames names bools ≠ ["Unincluded"]) :
    generate_intersection_id names bools
      = (if containedNames names bools = [] then "Subset~_~Unincluded"
         else "Subset"
           ++ String.join ((containedNames names bools).map (fun n => "~_~" ++ n)))
    ∧ get_element_name_from_id (generate_intersection_id names bools)
      = specElementName (containedNames names bools) := by
  have h1 := generate_intersection_id_spec names bools hnd hlen
  refine ⟨h1, ?_⟩
  rw [h1]
  by_cases hC : containedNames names bools = []
  · rw [if_pos hC, hC]
    decide
  · rw [if_neg hC]
    have hsub : ∀ n ∈ containedNames names bools, cleanChars n.data := by
      intro n hn
      apply hclean
      unfold containedNames at hn
      rcases List.mem_map.mp hn with ⟨p, hp, rfl⟩
      exact (List.of_mem_zip (List.mem_of_mem_filter hp)).1
    exact get_element_name_spec _ hsub hsing hC

/-- Witness for C2 at three sets A, B, C all contained: the identifier is
"Subset~_~A~_~B~_~C" and the element name is "A, B, and C". -/
theorem intersection_naming_witness :
    ["A", "B", "C"].Nodup
    ∧ generate_intersection_id ["A", "B", "C"] [true, true, true]
        = "Subset~_~A~_~B~_~C"
    ∧ get_element_name_from_id
        (generate_intersection_id ["A", "B", "C"] [true, true, true])
        = "A, B, and C" := by
  have h := intersection_naming ["A", "B", "C"] [true, true, true]
    (by decide) (by decide)
    (by intro n hn; fin_cases hn <;> exact ⟨by decide, by decide⟩)
    (by decide)
  refine ⟨by decide, ?_, ?_⟩
  · rw [h.1]
    decide
  · rw [h.2]
    decide

theorem applyMetaData_sortBy (md : Option MetaData) (g : Grammar) :
    (applyMetaData md g).sortBy = g.sortBy := by
  cases md <;> rfl

theorem applyMetaData_sortByOrder (md : Option MetaData) (g : Grammar) :
    (applyMetaData md g).sortByOrder = g.sortByOrder := by
  cases md <;> rfl

theorem applyMetaData_sortVisibleBy (md : Option MetaData) (g : Grammar) :
    (applyMetaData md g).sortVisibleBy = g.sortVisibleBy := by
  cases md <;> rfl

theorem applySortBy_sortVisibleBy (sb : String) (g : Grammar) :
    (applySortBy sb g).sortVisibleBy = g.sortVisibleBy := by
  simp [applySortBy, apply_ite Grammar.sortVisibleBy]

theorem applySortCategoriesBy_sortBy (scb : String) (g : Grammar) :
    (applySortCategoriesBy scb g).sortBy = g.sortBy := by
  simp [applySortCategoriesBy, apply_ite Grammar.sortBy]

theorem applySortCategoriesBy_sortByOrder (scb : String) (g : Grammar) :
    (applySortCategoriesBy scb g).sortByOrder = g.sortByOrder := by
  simp [applySortCategoriesBy, apply_ite Grammar.sortByOrder]

theorem applySortBy_at_degree (g : Grammar) :
    applySortBy "degree" g
      = { g with sortBy := "Degree", sortByOrder := some "Descending" } := by
  simp [applySortBy]

theorem applySortBy_at_rdegree (g : Grammar) :
    applySortBy "-degree" g
      = { g with sortBy := "Degree", sortByOrder := some "Ascending" } := by
  simp [applySortBy]

theorem applySortBy_at_card (g : Grammar) :
    applySortBy "cardinality" g
      = { g with sortBy := "Size", sortByOrder := some "Ascending" } := by
  simp [applySortBy]

theorem applySortBy_at_rcard (g : Grammar) :
    applySortBy "-cardinality" g
      = { g with sortBy := "Size", sortByOrder := some "Descending" } := by
  simp [applySortBy]

theorem applySortBy_at_input (g : Grammar) :
    applySortBy "input" g
      = { g with sortBy := "Size", sortByOrder := some "Descending" } := by
  simp [applySortBy]

theorem applySortBy_at_rinput (g : Grammar) :
    applySortBy "-input" g
      = { g with sortBy := "Size", sortByOrder := some "Descending" } := by
  simp [applySortBy]

theorem applySortBy_unknown (sb : String) (g : Grammar)
    (h1 : sb ≠ "degree") (h2 : sb ≠ "-degree") (h3 : sb ≠ "cardinality")
    (h4 : sb ≠ "-cardinality") (h5 : sb ≠ "input") (h6 : sb ≠ "-input") :
    applySortBy sb g = g := by
  simp [applySortBy, h1, h2, h3, h4, h5, h6]

theorem applySortCategoriesBy_at_card (g : Grammar) :
    applySortCategoriesBy "cardinality" g = { g with sortVisibleBy := "Descending" } := by
  simp [applySortCategoriesBy]

theorem applySortCategoriesBy_at_rcard (g : Grammar) :
    applySortCategoriesBy "-cardinality" g = { g with sortVisibleBy := "Ascending" } := by
  simp [applySortCategoriesBy]

theorem applySortCategoriesBy_at_input (g : Grammar) :
    applySortCategoriesBy "input" g
      = { g with sortVisibleBy := "Alphabetical" } := by
  simp [applySortCategoriesBy]

theorem applySortCategoriesBy_at_rinput (g : Grammar) :
    applySortCategoriesBy "-input" g
      = { g with sortVisibleBy := "Alphabetical" } := by
  simp [applySortCategoriesBy]

theorem applySortCategoriesBy_unknown (scb : String) (g : Grammar)
    (h1 : scb ≠ "cardinality") (h2 : scb ≠ "-cardinality") (h3 : scb ≠ "input")
    (h4 : scb ≠ "-input") :
    applySortCategoriesBy scb g = g := by
  simp [applySortCategoriesBy, h1, h2, h3, h4]

theorem grammarDefaults_sortVisibleBy : grammarDefaults.sortVisibleBy = "Alphabetical" := rfl

theorem grammarDefaults_sortBy : grammarDefaults.sortBy = "Size" := rfl

theorem grammarDefaults_sortByOrder : grammarDefaults.sortByOrder = none := rfl

/-- C3: the sort-mapping table of the grammar builder — each recognized
`sort_by` value sets (sortBy, sortByOrder) per the table, each recognized
`sort_categories_by` value sets sortVisibleBy per the table, and any other
`sort_categories_by` value leaves the default "Alphabetical". -/
theorem sort_mapping_table {α : Type} (df : α) (names : List String)
    (rows : List (List Bool × Int)) (totals : List (String × Int))
    (horizontal : Bool) (min_degree max_degree : Option Int)
    (ies idata : Bool) (md : Option MetaData) :
    (∀ scb, (generate_grammar df names rows totals horizontal "degree" scb
        min_degree max_degree ies idata md).sortBy = "Degree"
      ∧ (generate_grammar df names rows totals horizontal "degree" scb
        min_degree max_degree ies idata md).sortByOrder = some "Descending")
    ∧ (∀ scb, (generate_grammar df names rows totals horizontal "-degree" scb
        min_degree max_degree ies idata md).sortBy = "Degree"
      ∧ (generate_grammar df names rows totals horizontal "-degree" scb
        min_degree max_degree ies idata md).sortByOrder = some "Ascending")
    ∧ (∀ scb, (generate_grammar df names rows totals horizontal "cardinality" scb
        min_degree max_degree ies idata md).sortBy = "Size"
      ∧ (generate_grammar df names rows totals horizontal "cardinality" scb
        min_degree max_degree ies idata md).sortByOrder = some "Ascending")
    ∧ (∀ scb, (generate_grammar df names rows totals horizontal "-cardinality" scb
        min_degree max_degree ies idata md).sortBy = "Size"
      ∧ (generate_grammar df names rows totals horizontal "-cardinality" scb
        min_degree max_degree ies idata md).sortByOrder = some "Descending")
    ∧ (∀ scb, (generate_grammar df names rows totals horizontal "input" scb
        min_degree max_degree ies idata md).sortBy = "Size"
      ∧ (generate_grammar df names rows totals horizontal "input" scb
        min_degree max_degree ies idata md).sortByOrder = some "Descending")
    ∧ (∀ scb, (generate_grammar df names rows totals horizontal "-input" scb
        min_degree max_degree ies idata md).sortBy = "Size"
      ∧ (generate_grammar df names rows totals horizontal "-input" scb
        min_degree max_degree ies idata md).sortByOrder = some "Descending")
    ∧ (∀ sb, (generate_grammar df names rows totals horizontal sb "cardinality"
        min_degree max_degree ies idata md).sortVisibleBy = "Descending")
    ∧ (∀ sb, (generate_grammar df names rows totals horizontal sb "-cardinality"
        min_degree max_degree ies idata md).sortVisibleBy = "Ascending")
    ∧ (∀ sb, (generate_grammar df names rows totals horizontal sb "input"
        min_degree max_degree ies idata md).sortVisibleBy = "Alphabetical")
    ∧ (∀ sb, (generate_grammar df names rows totals horizontal sb "-input"
        min_degree max_degree ies idata md).sortVisibleBy = "Alphabetical")
    ∧ (∀ sb scb, scb ≠ "cardinality" → scb ≠ "-cardinality" → scb ≠ "input" →
        scb ≠ "-input" →
        (generate_grammar df names rows totals horizontal sb scb
          min_degree max_degree ies idata md).sortVisibleBy = "Alphabetical") := by
  refine ⟨fun scb => ?_, fun scb => ?_, fun scb => ?_, fun scb => ?_, fun scb => ?_,
    fun scb => ?_, fun sb => ?_, fun sb => ?_, fun sb => ?_, fun sb => ?_,
    fun sb scb h1 h2 h3 h4 => ?_⟩
  case _ | _ | _ | _ | _ | _ =>
    simp [generate_grammar, apply_ite Grammar.sortBy, apply_ite Grammar.sortByOrder,
      applyFilters, applySortCategoriesBy_sortBy, applySortCategoriesBy_sortByOrder,
      applySortBy_at_degree, applySortBy_at_rdegree, applySortBy_at_card,
      applySortBy_at_rcard, applySortBy_at_input, applySortBy_at_rinput]
  case _ | _ | _ | _ =>
    simp [generate_grammar, apply_ite Grammar.sortVisibleBy, applyFilters,
      applySortCategoriesBy_at_card, applySortCategoriesBy_at_rcard,
      applySortCategoriesBy_at_input, applySortCategoriesBy_at_rinput,
      applySortBy_sortVisibleBy, applyMetaData_sortVisibleBy,
      grammarDefaults_sortVisibleBy]
  case _ =>
    simp [generate_grammar, apply_ite Grammar.sortVisibleBy, applyFilters,
      applySortCategoriesBy_unknown scb _ h1 h2 h3 h4,
      applySortBy_sortVisibleBy, applyMetaData_sortVisibleBy,
      grammarDefaults_sortVisibleBy]

/-- Witness for C3: at sort_by "degree" and the unrecognized
sort_categories_by "bogus", sortBy is "Degree" and sortVisibleBy keeps the
default "Alphabetical". -/
theorem sort_mapping_table_witness :
    (generate_grammar () [] [] ([] : List (String × Int)) false "degree" "bogus"
        none none false false none).sortBy = "Degree"
    ∧ (generate_grammar () [] [] ([] : List (String × Int)) false "degree" "bogus"
        none none false false none).sortVisibleBy = "Alphabetical" :=
  ⟨((sort_mapping_table () [] [] ([] : List (String × Int)) false none none
      false false none).1 "bogus").1,
   (sort_mapping_table () [] [] ([] : List (String × Int)) false none none
      false false none).2.2.2.2.2.2.2.2.2.2 "degree" "bogus"
      (by decide) (by decide) (by decide) (by decide)⟩

/-- C4 counterexample: for the unrecognized sort key "bogus" the grammar
keeps sortBy = "Size" but carries no sortByOrder key at all, so the sort
direction does not equal "Descending" — the default dict never contained a
sortByOrder entry. -/
theorem unknown_sort_by_counterexample :
    (generate_grammar () [] [] ([] : List (String × Int)) false "bogus" ""
        none none false false none).sortBy = "Size"
    ∧ (generate_grammar () [] [] ([] : List (String × Int)) false "bogus" ""
        none none false false none).sortByOrder = none
    ∧ (none : Option String) ≠ some "Descending" :=
  ⟨rfl, rfl, by decide⟩

/-- C4 (amended): every sort_by value outside the six recognized ones
raises no error and leaves sortBy = "Size" with no sortByOrder key emitted
(the grammar's default dict carries no sort-direction entry). -/
theorem unknown_sort_by {α : Type} (df : α) (names : List String)
    (rows : List (List Bool × Int)) (totals : List (String × Int))
    (horizontal : Bool) (sb scb : String) (min_degree max_degree : Option Int)
    (ies idata : Bool) (md : Option MetaData)
    (h1 : sb ≠ "degree") (h2 : sb ≠ "-degree") (h3 : sb ≠ "cardinality")
    (h4 : sb ≠ "-cardinality") (h5 : sb ≠ "input") (h6 : sb ≠ "-input") :
    (generate_grammar df names rows totals horizontal sb scb
        min_degree max_degree ies idata md).sortBy = "Size"
    ∧ (generate_grammar df names rows totals horizontal sb scb
        min_degree max_degree ies idata md).sortByOrder = none := by
  constructor <;>
  simp [generate_grammar, apply_ite Grammar.sortBy, apply_ite Grammar.sortByOrder,
    applyFilters, applySortCategoriesBy_sortBy, applySortCategoriesBy_sortByOrder,
    applySortBy_unknown sb _ h1 h2 h3 h4 h5 h6, applyMetaData_sortBy,
    applyMetaData_sortByOrder, grammarDefaults_sortBy, grammarDefaults_sortByOrder]

/-- Witness for C4 at the concrete unknown key "unknown-key". -/
theorem unknown_sort_by_witness :
    (generate_grammar () [] [] ([] : List (String × Int)) false "unknown-key" ""
        none none false false none).sortBy = "Size"
    ∧ (generate_grammar () [] [] ([] : List (String × Int)) false "unknown-key" ""
        none none false false none).sortByOrder = none :=
  unknown_sort_by () [] [] ([] : List (String × Int)) false "unknown-key" ""
    none none false false none (by decide) (by decide) (by decide) (by decide)
    (by decide) (by decide)

theorem applyMetaData_filters (md : Option MetaData) (g : Grammar) :
    (applyMetaData md g).filters = g.filters := by
  cases md <;> rfl

theorem applySortBy_filters (sb : String) (g : Grammar) :
    (applySortBy sb g).filters = g.filters := by
  simp [applySortBy, apply_ite Grammar.filters]

theorem applySortCategoriesBy_filters (scb : String) (g : Grammar) :
    (applySortCategoriesBy scb g).filters = g.filters := by
  simp [applySortCategoriesBy, apply_ite Grammar.filters]

/-- C5 counterexample: with `max_degree = 0` the grammar's maxVisible is 0,
not the 6 that the claimed Python-`or` formula `max_degree or 6` produces
for the falsy 0. -/
theorem max_degree_zero_counterexample :
    (generate_grammar () [] [] ([] : List (String × Int)) false "" "" none
        (some 0) false false none).filters.maxVisible = 0
    ∧ (0 : Int) ≠ 6 :=
  ⟨rfl, by decide⟩

/-- C5 (amended): hideEmpty = not include_empty_subsets; hideNoSet is true
iff min_degree is present and positive; minVisible is min_degree when
present and 0 otherwise; maxVisible is max_degree when present and 6
otherwise (so max_degree = 0 yields 0, not 6). -/
theorem filters_derivation {α : Type} (df : α) (names : List String)
    (rows : List (List Bool × Int)) (totals : List (String × Int))
    (horizontal : Bool) (sb scb : String) (min_degree max_degree : Option Int)
    (ies idata : Bool) (md : Option MetaData) :
    (generate_grammar df names rows totals horizontal sb scb
        min_degree max_degree ies idata md).filters.hideEmpty = !ies
    ∧ ((generate_grammar df names rows totals horizontal sb scb
        min_degree max_degree ies idata md).filters.hideNoSet = true
        ↔ ∃ d, min_degree = some d ∧ 0 < d)
    ∧ (generate_grammar df names rows totals horizontal sb scb
        min_degree max_degree ies idata md).filters.minVisible
        = min_degree.getD 0
    ∧ (generate_grammar df names rows totals horizontal sb scb
        min_degree max_degree ies idata md).filters.maxVisible
        = max_degree.getD 6 := by
  refine ⟨?_, ?_, ?_, ?_⟩
  · simp [generate_grammar, apply_ite Grammar.filters, applyFilters,
      applySortCategoriesBy_filters, applySortBy_filters, applyMetaData_filters]
  · cases min_degree with
    | none =>
      simp [generate_grammar, apply_ite Grammar.filters, applyFilters,
        applySortCategoriesBy_filters, applySortBy_filters, applyMetaData_filters]
    | some d =>
      simp [generate_grammar, apply_ite Grammar.filters, applyFilters,
        applySortCategoriesBy_filters, applySortBy_filters, applyMetaData_filters]
  · cases min_degree <;>
    simp [generate_grammar, apply_ite Grammar.filters, applyFilters,
      applySortCategoriesBy_filters, applySortBy_filters, applyMetaData_filters]
  · cases max_degree <;>
    simp [generate_grammar, apply_ite Grammar.filters, applyFilters,
      applySortCategoriesBy_filters, applySortBy_filters, applyMetaData_filters]

theorem mkRecord_id (names : List String) (totals : List (String × Int))
    (row : List Bool × Int) :
    (mkRecord names totals row).id = generate_intersection_id names row.1 := rfl

theorem gpd_order_aux (names : List String) (totals : List (String × Int)) :
    ∀ (rows : List (List Bool × Int)) (pd : PData),
      (rows.foldl (gpdStep names totals false) pd).order
        = pd.order ++ rows.map (fun row => generate_intersection_id names row.1) := by
  intro rows
  induction rows with
  | nil => intro pd; simp
  | cons row rest ih =>
    intro pd
    rw [List.foldl_cons, ih]
    have hstep : (gpdStep names totals false pd row).order
        = pd.order ++ [generate_intersection_id names row.1] := rfl
    rw [hstep, List.map_cons, List.append_assoc]
    rfl

/-- C6: the order list of the (non-accessible) processedData block is
exactly the identifier of each intersection record, in input iteration
order. -/
theorem processed_order_preserves_input {α : Type} (df : α) (names : List String)
    (rows : List (List Bool × Int)) (totals : List (String × Int)) :
    (generate_processed_data df names rows totals false).order
      = rows.map (fun row => generate_intersection_id names row.1) := by
  unfold generate_processed_data
  rw [gpd_order_aux]
  rfl

theorem dictInsert_map_strip (d : List (String × PRec)) (k : String) (v : PRec) :
    dictInsert (d.map (fun p => (p.1, stripItems p.2))) k (stripItems v)
      = (dictInsert d k v).map (fun p => (p.1, stripItems p.2)) := by
  unfold dictInsert
  have hany : ((d.map (fun p => (p.1, stripItems p.2))).any (fun p => p.1 == k))
      = (d.any (fun p => p.1 == k)) := by
    rw [List.any_map]
    rfl
  rw [hany]
  by_cases h : (d.any fun p => p.1 == k) = true
  · rw [if_pos h, if_pos h, List.map_map, List.map_map]
    apply List.map_congr_left
    intro p _
    by_cases hc : p.1 = k <;> simp [hc]
  · rw [if_neg h, if_neg h, List.map_append]
    rfl

theorem gpd_values_strip (names : List String) (totals : List (String × Int)) :
    ∀ (rows : List (List Bool × Int)) (vF : List (String × PRec))
      (oF oA : List String),
      rows.foldl (gpdStep names totals true)
          ⟨vF.map (fun p => (p.1, stripItems p.2)), oA⟩
        = ⟨((rows.foldl (gpdStep names totals false) ⟨vF, oF⟩).values).map
            (fun p => (p.1, stripItems p.2)), oA⟩ := by
  intro rows
  induction rows with
  | nil => intro vF oF oA; rfl
  | cons row rest ih =>
    intro vF oF oA
    rw [List.foldl_cons, List.foldl_cons]
    have hstep : gpdStep names totals true
        ⟨vF.map (fun p => (p.1, stripItems p.2)), oA⟩ row
        = ⟨(dictInsert vF (mkRecord names totals row).id
              { mkRecord names totals row with items := some [] }).map
            (fun p => (p.1, stripItems p.2)), oA⟩ := by
      show (⟨dictInsert (vF.map (fun p => (p.1, stripItems p.2)))
          (mkRecord names totals row).id (mkRecord names totals row), oA⟩ : PData) = _
      nth_rewrite 2 [show (mkRecord names totals row)
          = stripItems { mkRecord names totals row with items := some [] } from rfl]
      rw [dictInsert_map_strip]
    rw [hstep]
    have hstepF : gpdStep names totals false ⟨vF, oF⟩ row
        = ⟨dictInsert vF (mkRecord names totals row).id
            { mkRecord names totals row with items := some [] },
          oF ++ [(mkRecord names totals row).id]⟩ := rfl
    rw [hstepF]
    exact ih _ _ _

theorem dictInsert_mem {V : Type} (d : List (String × V)) (k : String) (v : V) :
    ∀ p ∈ dictInsert d k v, p ∈ d ∨ p = (k, v) := by
  intro p hp
  unfold dictInsert at hp
  by_cases h : (d.any fun q => q.1 == k) = true
  · rw [if_pos h] at hp
    rcases List.mem_map.mp hp with ⟨q, hq, rfl⟩
    by_cases hqk : (q.1 == k) = true
    · right
      simp [hqk]
    · left
      simp only [hqk, if_false]
      exact hq
  · rw [if_neg h] at hp
    rcases List.mem_append.mp hp with h1 | h1
    · left
      exact h1
    · right
      simpa using h1

theorem gpd_full_items (names : List String) (totals : List (String × Int)) :
    ∀ (rows : List (List Bool × Int)) (vF : List (String × PRec))
      (oF : List String),
      (∀ p ∈ vF, p.2.items = some []) →
      ∀ p ∈ (rows.foldl (gpdStep names totals false) ⟨vF, oF⟩).values,
        p.2.items = some [] := by
  intro rows
  induction rows with
  | nil => intro vF oF h p hp; exact h p hp
  | cons row rest ih =>
    intro vF oF h p hp
    rw [List.foldl_cons] at hp
    refine ih _ _ ?_ p hp
    intro q hq
    rcases dictInsert_mem vF (mkRecord names totals row).id
        { mkRecord names totals row with items := some [] } q hq with h1 | h1
    · exact h q h1
    · rw [h1]

/-- C7: with include_data the accessible block agrees with the full block
on every per-intersection field — its values are the full values with the
items placeholder removed (id, elementName, setMembership, size, type,
degree, attributes and deviation untouched), it carries no ordering, and
deviation is present in both variants. -/
theorem accessible_data_agreement {α : Type} (df : α) (names : List String)
    (rows : List (List Bool × Int)) (totals : List (String × Int)) :
    (generate_processed_data df names rows totals true).order = []
    ∧ (generate_processed_data df names rows totals true).values
        = ((generate_processed_data df names rows totals false).values).map
            (fun p => (p.1, stripItems p.2))
    ∧ (∀ p ∈ (generate_processed_data df names rows totals false).values,
        p.2.items = some [])
    ∧ (∀ p ∈ (generate_processed_data df names rows totals true).values,
        p.2.items = none) := by
  have hmain := gpd_values_strip names totals rows ([] : List (String × PRec)) [] []
  have hados : generate_processed_data df names rows totals true
      = ⟨((generate_processed_data df names rows totals false).values).map
          (fun p => (p.1, stripItems p.2)), []⟩ := by
    unfold generate_processed_data
    exact hmain
  refine ⟨by rw [hados], by rw [hados], ?_, ?_⟩
  · exact gpd_full_items names totals rows [] [] (by intro p hp; cases hp)
  · intro p hp
    rw [hados] at hp
    rcases List.mem_map.mp hp with ⟨q, _, rfl⟩
    rfl

/-- C10: the grammar returned by the builder is independent of the df
argument — df is passed through to the processed-data derivation but never
read. -/
theorem grammar_ignores_df {α : Type} (df₁ df₂ : α) (names : List String)
    (rows : List (List Bool × Int)) (totals : List (String × Int))
    (horizontal : Bool) (sb scb : String) (min_degree max_degree : Option Int)
    (ies idata : Bool) (md : Option MetaData) :
    generate_grammar df₁ names rows totals horizontal sb scb
        min_degree max_degree ies idata md
      = generate_grammar df₂ names rows totals horizontal sb scb
        min_degree max_degree ies idata md := rfl

/-- C8: an engine-construction failure is re-raised with the
"Failed to create alt text generator: " prefix, a text-production failure
with the "Failed to generate alt text: " prefix, a result is returned only
when both stages succeed (no partial result), and on the empty grammar
document the spec-modelled external engine fails so fetch_alt_text raises
the setup failure whose message contains the setup prefix. -/
theorem fetch_alt_text_spec {G E T : Type} (mkEngine : G → Except String E)
    (getText : E → Except String T) (g : G) :
    (∀ e, mkEngine g = Except.error e →
      fetch_alt_text mkEngine getText g
        = Except.error ("Failed to create alt text generator: " ++ e))
    ∧ (∀ gen e, mkEngine g = Except.ok gen → getText gen = Except.error e →
      fetch_alt_text mkEngine getText g
        = Except.error ("Failed to generate alt text: " ++ e))
    ∧ (∀ t, fetch_alt_text mkEngine getText g = Except.ok t ↔
        ∃ gen, mkEngine g = Except.ok gen ∧ getText gen = Except.ok t)
    ∧ (∀ gt : Unit → Except String T,
        fetch_alt_text externalEngineSetup gt ([] : List (String × String))
          = Except.error ("Failed to create alt text generator: "
              ++ "empty grammar")) := by
  refine ⟨?_, ?_, ?_, ?_⟩
  · intro e he
    unfold fetch_alt_text
    rw [he]
  · intro gen e hok herr
    simp [fetch_alt_text, hok, herr]
  · intro t
    cases hmk : mkEngine g with
    | error e => simp [fetch_alt_text, hmk]
    | ok gen =>
      cases hgt : getText gen with
      | error e => simp [fetch_alt_text, hmk, hgt]
      | ok t2 =>
        simp only [fetch_alt_text, hmk, hgt]
        constructor
        · intro h
          cases h
          exact ⟨gen, rfl, hgt⟩
        · rintro ⟨gen2, hok2, htx2⟩
          cases hok2
          rw [hgt] at htx2
          exact htx2
  · intro gt
    unfold fetch_alt_text
    rfl

/-- Witness for C8: a failing engine construction is wrapped with the
setup prefix, and the empty grammar document triggers exactly that path. -/
theorem fetch_alt_text_spec_witness :
    fetch_alt_text (fun _ : Unit => (Except.error "boom" : Except String Unit))
        (fun _ : Unit => (Except.ok "txt" : Except String String)) ()
      = Except.error ("Failed to create alt text generator: " ++ "boom")
    ∧ fetch_alt_text externalEngineSetup
        (fun _ : Unit => (Except.ok "txt" : Except String String))
        ([] : List (String × String))
      = Except.error ("Failed to create alt text generator: "
          ++ "empty grammar") :=
  ⟨(fetch_alt_text_spec (fun _ : Unit => (Except.error "boom" : Except String Unit))
      (fun _ : Unit => (Except.ok "txt" : Except String String)) ()).1 "boom" rfl,
   (fetch_alt_text_spec externalEngineSetup
      (fun _ : Unit => (Except.ok "txt" : Except String String))
      ([] : List (String × String))).2.2.2
      (fun _ : Unit => (Except.ok "txt" : Except String String))⟩
